import Mathlib

/-!
The torbit chat server: registry, broadcast, name negotiation and HTTP handlers.

A shallow embedding of `chatserver/chatserver.go`, `user/user.go` and the
handlers of `server/server.go`.

* A Go `error` is `Option GoError` (`none` is `nil`).
* The `io.Writer` values the server holds (the chat log and every user's
  `net.Conn`) are sinks. Every `Write` call is appended to a history of
  `WriteEvent`s together with its outcome; the outcome of the `k`-th call is
  chosen by an arbitrary environment `Env`.
* The Go map `users` is the list of its entries in the order in which
  `for ... range` visits them; `mapInsert`, `mapDelete` and `mapLookup` are
  the map assignment, `delete` and the comma-ok lookup.
  One list order stands for one possible iteration order; the properties hold
  for every list, hence for every order.
* `getTimeStamp()` reads the clock; the value read is a parameter.
* Each operation is run on its own, from start to end: the mutex `mu` and the
  interleaving of goroutines are not part of the model.
-/

namespace Torbit

/-- Text of a non-nil Go `error`. -/
abbrev GoError := String

/-- The `User` struct of `user/user.go`; `Conn` is the identity of the `net.Conn`. -/
structure User where
  Name : String
  Conn : Nat
deriving DecidableEq, Repr

/-- The writers the server owns: the chat log and the connections. -/
inductive Sink where
  | chatLog
  | conn (c : Nat)
deriving DecidableEq, Repr

/-- One call of `Write`: where, what, and the error it returned. -/
structure WriteEvent where
  sink : Sink
  data : String
  err : Option GoError
deriving DecidableEq, Repr

/-- Outcome of the `k`-th `Write` (counted over the whole history). -/
abbrev Env := Nat → Sink → String → Option GoError

/-- The entries of `map[string]*u.User`, in iteration order. -/
abbrev UserMap := List (String × User)

/-- Assignment `m[k] = u`. -/
def mapInsert (m : UserMap) (k : String) (u : User) : UserMap :=
  if m.any (fun e => e.1 == k) then
    m.map (fun e => if e.1 == k then (k, u) else e)
  else
    m ++ [(k, u)]

/-- Builtin `delete(m, k)`. -/
def mapDelete (m : UserMap) (k : String) : UserMap :=
  m.filter (fun e => !(e.1 == k))

/-- Lookup `m[k]` in comma-ok form. -/
def mapLookup (m : UserMap) (k : String) : Option User :=
  (m.find? (fun e => e.1 == k)).map (fun e => e.2)

/-- The state of a `ChatServer`: the `users` map and the history of writes
made through `chatLog` and the users' connections. -/
structure ChatServer where
  users : UserMap
  out : List WriteEvent
deriving DecidableEq, Repr

/-- `NewChatServer`: an empty map, nothing written yet. -/
def NewChatServer : ChatServer := { users := [], out := [] }

/-- A call `w.Write(data)` on sink `s`: the environment picks the outcome and
the call is recorded. -/
def sinkWrite (env : Env) (out : List WriteEvent) (s : Sink) (data : String) :
    Option GoError × List WriteEvent :=
  let e := env out.length s data
  (e, out ++ [{ sink := s, data := data, err := e }])

/-- The function `errors.Wrap` of `github.com/pkg/errors`: "If err is nil, Wrap
returns nil"; otherwise the message is put in front of the error text. -/
def errors.Wrap (err : Option GoError) (message : String) : Option GoError :=
  match err with
  | none => none
  | some e => some (message ++ ": " ++ e)

/-- The body of the `for _, usr := range cs.users` loop of `ChatServer.write`,
run over the entries still to visit, threading `myUser`, `writeErr` and the
write history. -/
def writeLoop (env : Env) (userName msg : String) (displayPrompt : Bool) :
    UserMap → Option User → Option GoError → List WriteEvent →
      Option User × Option GoError × List WriteEvent
  | [], myUser, writeErr, out => (myUser, writeErr, out)
  | (_, usr) :: rest, myUser, writeErr, out =>
    if usr.Name = userName then
      writeLoop env userName msg displayPrompt rest (some usr) writeErr out
    else
      let outMsg := if displayPrompt then "\n" ++ userName ++ " >> " ++ msg else msg
      match sinkWrite env out (Sink.conn usr.Conn) outMsg with
      | (some err, out1) =>
        writeLoop env userName msg displayPrompt rest myUser
          (errors.Wrap writeErr
            ("unable to write msg: " ++ msg ++ " to usr: " ++ userName ++ ", error: " ++ err))
          out1
      | (none, out1) =>
        match sinkWrite env out1 (Sink.conn usr.Conn) (usr.Name ++ " >> ") with
        | (some err, out2) =>
          writeLoop env userName msg displayPrompt rest myUser
            (errors.Wrap writeErr
              ("unable to set user prompt for user: " ++ usr.Name ++ ", error: " ++ err))
            out2
        | (none, out2) =>
          writeLoop env userName msg displayPrompt rest myUser writeErr out2

/-- `ChatServer.write`: send `msg` to every user but `userName`, then rewrite
the sender's prompt. Returns `writeErr` and the new write history. -/
def ChatServer.write (env : Env) (cs : ChatServer) (userName msg : String)
    (displayPrompt : Bool) : Option GoError × ChatServer :=
  match writeLoop env userName msg displayPrompt cs.users none none cs.out with
  | (none, writeErr, out1) => (writeErr, { cs with out := out1 })
  | (some myUser, writeErr, out1) =>
    match sinkWrite env out1 (Sink.conn myUser.Conn) (myUser.Name ++ " >> ") with
    | (some err, out2) =>
      (errors.Wrap writeErr
        ("unable to set user prompt for user: " ++ myUser.Name ++ ", error: " ++ err),
        { cs with out := out2 })
    | (none, out2) => (writeErr, { cs with out := out2 })

/-- The loop of `writeLoggedInUsers`: `i` counts the entries visited and
`loggedInUsers` collects the names, each followed by `", "` or, for the last
one, a newline. -/
def loggedInLoop (numUsers : Nat) : UserMap → Nat → String → String
  | [], _, loggedInUsers => loggedInUsers
  | (_, u) :: rest, i, loggedInUsers =>
    let i := i + 1
    let uName := if i < numUsers then u.Name ++ ", " else u.Name ++ "\n"
    loggedInLoop numUsers rest i (loggedInUsers ++ uName)

/-- `ChatServer.writeLoggedInUsers`: tell `user` who is logged in. The test
`len(loggedInUsers) < 1` holds exactly for the empty buffer. -/
def ChatServer.writeLoggedInUsers (env : Env) (cs : ChatServer) (user : User) :
    Option GoError × ChatServer :=
  let loggedInUsers := loggedInLoop cs.users.length cs.users 0 ""
  if loggedInUsers.length < 1 then
    (none, cs)
  else
    match sinkWrite env cs.out (Sink.conn user.Conn)
        ("Current logged in users: " ++ loggedInUsers) with
    | (some err, out1) =>
      (some ("unable to write logged in users, error: " ++ err), { cs with out := out1 })
    | (none, out1) => (none, { cs with out := out1 })

/-- `ChatServer.Join`; `ts` is the value of `getTimeStamp()`. -/
def ChatServer.Join (env : Env) (ts : String) (cs : ChatServer) (user : User) :
    Option GoError × ChatServer :=
  let userName := user.Name
  let userJoined := "user: " ++ userName ++ " joined at: " ++ ts ++ "\n"
  match sinkWrite env cs.out Sink.chatLog userJoined with
  | (some err, out1) =>
    (some ("unable to write msg to chat log, error: " ++ err), { cs with out := out1 })
  | (none, out1) =>
    match ChatServer.writeLoggedInUsers env { cs with out := out1 } user with
    | (some err, cs1) => (some err, cs1)
    | (none, cs1) =>
      ChatServer.write env { cs1 with users := mapInsert cs1.users userName user }
        userName ("\n" ++ userJoined) false

/-- `ChatServer.SendMsg`. -/
def ChatServer.SendMsg (env : Env) (cs : ChatServer) (userName msg : String) :
    Option GoError × ChatServer :=
  let sendingMsg := "user: " ++ userName ++ " sent message: " ++ msg ++ "\n"
  match sinkWrite env cs.out Sink.chatLog sendingMsg with
  | (some err, out1) =>
    (some ("unable to write msg to chat log, error: " ++ err), { cs with out := out1 })
  | (none, out1) =>
    ChatServer.write env { cs with out := out1 } userName (msg ++ "\n") true

/-- `ChatServer.Exit`; `ts` is the value of `getTimeStamp()`. -/
def ChatServer.Exit (env : Env) (ts : String) (cs : ChatServer) (userName : String) :
    Option GoError × ChatServer :=
  let userExited := "user: " ++ userName ++ " has left at: " ++ ts ++ "\n"
  match sinkWrite env cs.out Sink.chatLog userExited with
  | (some err, out1) =>
    (some ("unable to write msg to chat log, error: " ++ err), { cs with out := out1 })
  | (none, out1) =>
    ChatServer.write env { users := mapDelete cs.users userName, out := out1 }
      userName ("\n" ++ userExited) false

/-- `ChatServer.GetUsers`: the map itself. -/
def ChatServer.GetUsers (cs : ChatServer) : UserMap := cs.users

/-- What a `bufio.Scanner` over the connection yields: one entry for each call
of `Scan()` that returns true, holding `Text()` and `Err()` at that point;
after the last entry `Scan()` returns false (end of stream or read error). -/
abbrev ScanInput := List (String × Option GoError)

/-- The `for scanner.Scan()` loop of `NewUser` with its final `return`.
The "already in use" text goes to the `bufio.Writer` `w`, which `NewUser` never
flushes, so it is not a write on the connection. The result is the pair
`(user, err)` and the write history. -/
def newUserLoop (env : Env) (conn : Nat) (connectedUsers : UserMap) :
    ScanInput → String → List WriteEvent → (Option User × Option GoError) × List WriteEvent
  | [], name, out => ((some { Name := name, Conn := conn }, none), out)
  | (text, scanErr) :: rest, _, out =>
    match scanErr with
    | some err => ((none, some err), out)
    | none =>
      let name := text
      if name = "" then
        match sinkWrite env out (Sink.conn conn) "Name cannot be blank, please try again: " with
        | (some err, out1) => ((none, some err), out1)
        | (none, out1) => newUserLoop env conn connectedUsers rest name out1
      else if (mapLookup connectedUsers name).isNone then
        ((some { Name := name, Conn := conn }, none), out)
      else
        newUserLoop env conn connectedUsers rest name out

/-- `NewUser` of `user/user.go`. -/
def NewUser (env : Env) (conn : Nat) (connectedUsers : UserMap) (input : ScanInput)
    (out : List WriteEvent) : (Option User × Option GoError) × List WriteEvent :=
  match sinkWrite env out (Sink.conn conn) "Please enter your name: " with
  | (some err, out1) => ((none, some err), out1)
  | (none, out1) => newUserLoop env conn connectedUsers input "" out1

/-- The read loop of `manageConn`: every line is sent; the first error ends it. -/
def sendLoop (env : Env) (name : String) : List String → ChatServer → ChatServer
  | [], cs => cs
  | msg :: rest, cs =>
    match ChatServer.SendMsg env cs name msg with
    | (some _, cs1) => cs1
    | (none, cs1) => sendLoop env name rest cs1

/-- `Server.manageConn` on the chat server state. `nameInput` is what the
scanner of `NewUser` yields, `msgInput` the lines of the second scanner;
`tsJoin` and `tsExit` are the two clock readings. The deferred `Exit` runs
once `Join` has succeeded. -/
def manageConn (env : Env) (tsJoin tsExit : String) (conn : Nat) (nameInput : ScanInput)
    (msgInput : List String) (cs : ChatServer) : ChatServer :=
  match NewUser env conn cs.GetUsers nameInput cs.out with
  | ((_, some _), out1) => { cs with out := out1 }
  | ((none, none), out1) => { cs with out := out1 }
  | ((some nu, none), out1) =>
    match ChatServer.Join env tsJoin { cs with out := out1 } nu with
    | (some _, cs1) => cs1
    | (none, cs1) =>
      (ChatServer.Exit env tsExit (sendLoop env nu.Name msgInput cs1) nu.Name).2

/-- An `http.ResponseWriter`: the status line once it is written, and the body.
As net/http documents, `Write` first calls `WriteHeader(http.StatusOK)` if no
header has been written, and a `WriteHeader` after the header is written has
no effect. -/
structure ResponseWriter where
  status : Option Nat
  body : String
deriving DecidableEq, Repr

/-- A response nothing has been written to. -/
def ResponseWriter.fresh : ResponseWriter := { status := none, body := "" }

/-- The method `WriteHeader(code)`. -/
def ResponseWriter.WriteHeader (w : ResponseWriter) (code : Nat) : ResponseWriter :=
  match w.status with
  | some _ => w
  | none => { w with status := some code }

/-- The method `Write`, as reached through `fmt.Fprintf(w, ...)`. -/
def ResponseWriter.Write (w : ResponseWriter) (s : String) : ResponseWriter :=
  let w1 := w.WriteHeader 200
  { w1 with body := w1.body ++ s }

/-- The fields of `Server` the handlers use. -/
structure Server where
  chatServer : ChatServer
  chatServerUp : Bool
deriving DecidableEq, Repr

/-- `Server.Ping`. -/
def Server.Ping (w : ResponseWriter) : ResponseWriter :=
  (w.WriteHeader 200).Write "pong"

/-- `Server.HealthCheck`. -/
def Server.HealthCheck (s : Server) (w : ResponseWriter) : ResponseWriter :=
  let w1 :=
    if !s.chatServerUp then (w.Write "chat server is down\n").WriteHeader 500 else w
  (w1.WriteHeader 200).Write "ok"

/-- `Server.SendMsg`: `userName` is `mux.Vars(r)["username"]`, `body` the result
of `buf.ReadFrom(r.Body)` (the text read, or the read error). -/
def Server.SendMsg (env : Env) (s : Server) (userName : String) (body : Except GoError String)
    (w : ResponseWriter) : ResponseWriter × Server :=
  if userName = "" then
    ((w.Write "username cannot be blank\n").WriteHeader 400, s)
  else
    match body with
    | Except.error err =>
      ((w.Write ("unable to read request body, error: " ++ err ++ "\n")).WriteHeader 400, s)
    | Except.ok usrMsg =>
      match ChatServer.SendMsg env s.chatServer userName usrMsg with
      | (some err, cs1) =>
        ((w.Write ("unable to send msg: " ++ usrMsg ++ " from user: " ++ usrMsg ++
            ", error: " ++ err ++ "\n")).WriteHeader 500,
          { s with chatServer := cs1 })
      | (none, cs1) =>
        ((w.WriteHeader 200).Write "ok", { s with chatServer := cs1 })

/-- An environment in which every write succeeds. -/
def envOk : Env := fun _ _ _ => none

/-- Sample users. -/
def alice : User := { Name := "alice", Conn := 1 }
def bob : User := { Name := "bob", Conn := 2 }

def carol : User := { Name := "carol", Conn := 3 }

/-! ## Auxiliary definitions used to state the properties -/

/-- The write events added between two histories. -/
def newEvents (before after : List WriteEvent) : List WriteEvent :=
  after.drop before.length

/-- The events of a history that went to sink `s`. -/
def eventsTo (s : Sink) (evs : List WriteEvent) : List WriteEvent :=
  evs.filter (fun e => decide (e.sink = s))

/-- The text `ChatServer.write` sends to the other users. -/
def outMsgOf (userName msg : String) (displayPrompt : Bool) : String :=
  if displayPrompt then "\n" ++ userName ++ " >> " ++ msg else msg

/-- The writes of the loop of `ChatServer.write` when every write succeeds:
the message and then the prompt, for each user other than `userName`. -/
def fanOut (userName outMsg : String) : UserMap → List WriteEvent
  | [] => []
  | (_, usr) :: rest =>
    if usr.Name = userName then fanOut userName outMsg rest
    else
      { sink := Sink.conn usr.Conn, data := outMsg, err := none } ::
        { sink := Sink.conn usr.Conn, data := usr.Name ++ " >> ", err := none } ::
          fanOut userName outMsg rest

/-- The value of `myUser` after the loop: the last user visited whose name is
`userName`. -/
def lastSender (userName : String) : UserMap → Option User → Option User
  | [], my => my
  | (_, usr) :: rest, my =>
    if usr.Name = userName then lastSender userName rest (some usr)
    else lastSender userName rest my

/-- The final prompt write of `ChatServer.write` when it succeeds. -/
def promptEvents : Option User → List WriteEvent
  | none => []
  | some u => [{ sink := Sink.conn u.Conn, data := u.Name ++ " >> ", err := none }]

/-- An operation on `cs` with result `r` stopped at the chat log: it returned
an error, left the `users` map as it was and wrote on no connection. -/
def AbortedAtChatLog (cs : ChatServer) (r : Option GoError × ChatServer) : Prop :=
  r.1 ≠ none ∧ r.2.users = cs.users ∧
    ∀ ev ∈ newEvents cs.out r.2.out, ∀ c : Nat, ev.sink ≠ Sink.conn c

/-- An environment in which every write to the chat log fails. -/
def envLogDown : Env := fun _ s _ =>
  match s with
  | Sink.chatLog => some "disk full"
  | Sink.conn _ => none

/-- An environment in which every write on connection `c` fails. -/
def envConnDown (c : Nat) : Env := fun _ s _ =>
  if s = Sink.conn c then some "broken pipe" else none

/-- What follows the first name in the roster: every further name preceded by
`", "`, then the newline. -/
def rosterTail : List String → String
  | [] => "\n"
  | a :: t => ", " ++ a ++ rosterTail t

/-- The names with their separators as the loop of `writeLoggedInUsers` lays
them out. -/
def rosterNames : List String → String
  | [] => ""
  | a :: t => a ++ rosterTail t

/-- The roster line as the specification words it: the header, the names
separated by `", "`, one newline. -/
def rosterLine (names : List String) : String :=
  "Current logged in users: " ++ String.intercalate ", " names ++ "\n"

/-- The roster write of a join with every write accepted: none for an empty
registry, else one roster line on the joining connection. -/
def rosterEvents (user : User) (users : UserMap) : List WriteEvent :=
  if users = [] then []
  else [{ sink := Sink.conn user.Conn, data := rosterLine (users.map (fun e => e.2.Name)),
          err := none }]

/-! ## Lemmas on the broadcast loop -/

theorem sinkWrite_fst (env : Env) (out : List WriteEvent) (s : Sink) (d : String) :
    (sinkWrite env out s d).1 = env out.length s d := rfl

theorem sinkWrite_snd (env : Env) (out : List WriteEvent) (s : Sink) (d : String) :
    (sinkWrite env out s d).2 = out ++ [{ sink := s, data := d, err := env out.length s d }] :=
  rfl

theorem writeLoop_err_none (env : Env) (s m : String) (dp : Bool) :
    ∀ (users : UserMap) (my : Option User) (out : List WriteEvent),
      (writeLoop env s m dp users my none out).2.1 = none := by
  intro users
  induction users with
  | nil => intro my out; rfl
  | cons e rest ih =>
    intro my out
    obtain ⟨k, usr⟩ := e
    simp only [writeLoop]
    split
    · exact ih _ _
    · split
      · exact ih _ _
      · split
        · exact ih _ _
        · exact ih _ _

theorem write_err_none (env : Env) (cs : ChatServer) (s m : String) (dp : Bool) :
    (cs.write env s m dp).1 = none := by
  have h := writeLoop_err_none env s m dp cs.users none cs.out
  unfold ChatServer.write
  split
  · rename_i werr out1 heq
    rw [heq] at h
    exact h
  · rename_i my werr out1 heq
    rw [heq] at h
    simp only at h
    subst h
    split <;> rfl

theorem write_users (env : Env) (cs : ChatServer) (s m : String) (dp : Bool) :
    (cs.write env s m dp).2.users = cs.users := by
  unfold ChatServer.write
  split
  · rfl
  · split <;> rfl

theorem newEvents_append (out evs : List WriteEvent) : newEvents out (out ++ evs) = evs := by
  simp [newEvents]

theorem writeLoop_attempts (env : Env) (s m : String) (dp : Bool) :
    ∀ (users : UserMap) (my : Option User) (werr : Option GoError) (out : List WriteEvent),
      ∃ evs, (writeLoop env s m dp users my werr out).2.2 = out ++ evs ∧
        ∀ e ∈ users, e.2.Name ≠ s →
          ∃ ev ∈ evs, ev.sink = Sink.conn e.2.Conn ∧ ev.data = outMsgOf s m dp := by
  intro users
  induction users with
  | nil => intro my werr out; exact ⟨[], by simp [writeLoop], by simp⟩
  | cons e rest ih =>
    intro my werr out
    obtain ⟨k, usr⟩ := e
    simp only [writeLoop]
    split
    · rename_i hname
      obtain ⟨evs, h1, h2⟩ := ih (some usr) werr out
      refine ⟨evs, h1, ?_⟩
      intro e he hne
      rcases List.mem_cons.1 he with rfl | he
      · exact absurd hname hne
      · exact h2 e he hne
    · rename_i hname
      have key : ∀ (my1 : Option User) (werr1 : Option GoError) (mid : List WriteEvent)
          (ev0 : WriteEvent), ev0 ∈ mid → ev0.sink = Sink.conn usr.Conn →
          ev0.data = outMsgOf s m dp →
          ∃ evs, (writeLoop env s m dp rest my1 werr1 (out ++ mid)).2.2 = out ++ evs ∧
            ∀ e ∈ (k, usr) :: rest, e.2.Name ≠ s →
              ∃ ev ∈ evs, ev.sink = Sink.conn e.2.Conn ∧ ev.data = outMsgOf s m dp := by
        intro my1 werr1 mid ev0 hmem hsink hdata
        obtain ⟨evs, h1, h2⟩ := ih my1 werr1 (out ++ mid)
        refine ⟨mid ++ evs, by rw [h1, List.append_assoc], ?_⟩
        intro e he hne
        rcases List.mem_cons.1 he with rfl | he
        · exact ⟨ev0, List.mem_append_left _ hmem, hsink, hdata⟩
        · obtain ⟨ev, hev, hs, hd⟩ := h2 e he hne
          exact ⟨ev, List.mem_append_right _ hev, hs, hd⟩
      split
      · rename_i err out1 heq
        have h1 := (congrArg Prod.snd heq).symm
        simp only [sinkWrite_snd] at h1
        rw [h1]
        exact key _ _ _ _ (List.mem_singleton.2 rfl) rfl rfl
      · rename_i out1 heq
        have h1 := (congrArg Prod.snd heq).symm
        simp only [sinkWrite_snd] at h1
        split
        · rename_i err out2 heq2
          have h2 := (congrArg Prod.snd heq2).symm
          simp only [sinkWrite_snd] at h2
          rw [h2, h1, List.append_assoc]
          exact key _ _ _ _ (List.mem_cons_self _ _) rfl rfl
        · rename_i out2 heq2
          have h2 := (congrArg Prod.snd heq2).symm
          simp only [sinkWrite_snd] at h2
          rw [h2, h1, List.append_assoc]
          exact key _ _ _ _ (List.mem_cons_self _ _) rfl rfl

theorem write_attempts (env : Env) (cs : ChatServer) (s m : String) (dp : Bool) :
    ∃ evs, (cs.write env s m dp).2.out = cs.out ++ evs ∧
      ∀ e ∈ cs.users, e.2.Name ≠ s →
        ∃ ev ∈ evs, ev.sink = Sink.conn e.2.Conn ∧ ev.data = outMsgOf s m dp := by
  obtain ⟨evs, h1, h2⟩ := writeLoop_attempts env s m dp cs.users none none cs.out
  unfold ChatServer.write
  split
  · rename_i werr out1 heq
    rw [heq] at h1
    exact ⟨evs, h1, h2⟩
  · rename_i my werr out1 heq
    rw [heq] at h1
    simp only at h1
    have hext : ∀ (ev1 : WriteEvent), ∃ evs1, out1 ++ [ev1] = cs.out ++ evs1 ∧
        ∀ e ∈ cs.users, e.2.Name ≠ s →
          ∃ ev ∈ evs1, ev.sink = Sink.conn e.2.Conn ∧ ev.data = outMsgOf s m dp := by
      intro ev1
      refine ⟨evs ++ [ev1], by rw [h1, List.append_assoc], ?_⟩
      intro e he hne
      obtain ⟨ev, hev, hs, hd⟩ := h2 e he hne
      exact ⟨ev, List.mem_append_left _ hev, hs, hd⟩
    split
    · rename_i err out2 heq2
      have h3 := (congrArg Prod.snd heq2).symm
      simp only [sinkWrite_snd] at h3
      simp only
      rw [h3]
      exact hext _
    · rename_i out2 heq2
      have h3 := (congrArg Prod.snd heq2).symm
      simp only [sinkWrite_snd] at h3
      simp only
      rw [h3]
      exact hext _

theorem writeLoop_ok (env : Env) (henv : ∀ k s d, env k s d = none) (s m : String) (dp : Bool) :
    ∀ (users : UserMap) (my : Option User) (werr : Option GoError) (out : List WriteEvent),
      writeLoop env s m dp users my werr out =
        (lastSender s users my, werr, out ++ fanOut s (outMsgOf s m dp) users) := by
  intro users
  induction users with
  | nil => intro my werr out; simp [writeLoop, lastSender, fanOut]
  | cons e rest ih =>
    intro my werr out
    obtain ⟨k, usr⟩ := e
    by_cases hname : usr.Name = s
    · simp only [writeLoop, lastSender, fanOut, if_pos hname]
      exact ih _ _ _
    · simp only [writeLoop, lastSender, fanOut, if_neg hname, sinkWrite, henv]
      rw [ih]
      simp [outMsgOf]

theorem write_ok (env : Env) (henv : ∀ k s d, env k s d = none) (cs : ChatServer)
    (s m : String) (dp : Bool) :
    cs.write env s m dp =
      (none, { cs with out := cs.out ++ (fanOut s (outMsgOf s m dp) cs.users ++
        promptEvents (lastSender s cs.users none)) }) := by
  unfold ChatServer.write
  rw [writeLoop_ok env henv]
  cases h : lastSender s cs.users none with
  | none => simp [promptEvents]
  | some u => simp [promptEvents, sinkWrite, henv]

theorem eventsTo_append (t : Sink) (a b : List WriteEvent) :
    eventsTo t (a ++ b) = eventsTo t a ++ eventsTo t b := by
  simp [eventsTo]

theorem eventsTo_fanOut_conn (s om : String) (c : Nat) :
    ∀ users : UserMap, eventsTo (Sink.conn c) (fanOut s om users) =
      fanOut s om (users.filter (fun e => decide (e.2.Conn = c))) := by
  intro users
  induction users with
  | nil => rfl
  | cons e rest ih =>
    obtain ⟨k, usr⟩ := e
    by_cases hname : usr.Name = s
    · by_cases hc : usr.Conn = c
      · simp only [fanOut, if_pos hname, List.filter_cons, hc, decide_True, if_true]
        rw [ih]
      · simp only [fanOut, if_pos hname, List.filter_cons, hc, decide_False]
        rw [ih]; simp
    · by_cases hc : usr.Conn = c
      · simp only [fanOut, if_neg hname, List.filter_cons, hc, decide_True, if_true]
        simp only [eventsTo, List.filter_cons, decide_True, if_true] at ih ⊢
        rw [ih]
      · have hs : ¬ (Sink.conn usr.Conn = Sink.conn c) := fun h => hc (Sink.conn.inj h)
        simp only [fanOut, if_neg hname, List.filter_cons, hc, decide_False]
        simp only [eventsTo, List.filter_cons, hs, decide_False] at ih ⊢
        rw [ih]; simp

theorem eventsTo_fanOut_chatLog (s om : String) :
    ∀ users : UserMap, eventsTo Sink.chatLog (fanOut s om users) = [] := by
  intro users
  induction users with
  | nil => rfl
  | cons e rest ih =>
    obtain ⟨k, usr⟩ := e
    by_cases hname : usr.Name = s
    · simp only [fanOut, if_pos hname]; exact ih
    · simp only [fanOut, if_neg hname]
      simp only [eventsTo, List.filter_cons] at ih ⊢
      simpa using ih

theorem filter_eq_singleton_of_nodup_map {α β : Type} [DecidableEq β] (f : α → β) :
    ∀ (l : List α) (e : α), (l.map f).Nodup → e ∈ l →
      l.filter (fun x => decide (f x = f e)) = [e] := by
  intro l
  induction l with
  | nil => intro e _ he; cases he
  | cons a rest ih =>
    intro e hnd he
    rw [List.map_cons, List.nodup_cons] at hnd
    rcases List.mem_cons.1 he with rfl | he
    · have hrest : rest.filter (fun x => decide (f x = f e)) = [] := by
        rw [List.filter_eq_nil_iff]
        intro x hx hfx
        exact hnd.1 (by rw [← of_decide_eq_true hfx]; exact List.mem_map_of_mem f hx)
      simp [List.filter_cons, hrest]
    · have hne : f a ≠ f e := fun h => hnd.1 (by rw [h]; exact List.mem_map_of_mem f he)
      simp [List.filter_cons, hne, ih e hnd.2 he]

theorem lastSender_of_mem (s : String) :
    ∀ (users : UserMap) (my : Option User) (e : String × User),
      (users.map (fun x => x.2.Name)).Nodup → e ∈ users → e.2.Name = s →
        lastSender s users my = some e.2 := by
  intro users
  induction users with
  | nil => intro my e _ he; cases he
  | cons a rest ih =>
    intro my e hnd he hs
    obtain ⟨k, usr⟩ := a
    rw [List.map_cons, List.nodup_cons] at hnd
    have hnone : ∀ (l : UserMap) (my1 : Option User),
        (∀ x ∈ l, x.2.Name ≠ s) → lastSender s l my1 = my1 := by
      intro l
      induction l with
      | nil => intro my1 _; rfl
      | cons b t iht =>
        intro my1 hall
        obtain ⟨kb, ub⟩ := b
        have hb : ub.Name ≠ s := hall (kb, ub) (List.mem_cons_self _ _)
        simp only [lastSender, if_neg hb]
        exact iht my1 (fun x hx => hall x (List.mem_cons_of_mem _ hx))
    rcases List.mem_cons.1 he with rfl | he
    · simp only at hs
      simp only [lastSender, if_pos hs]
      apply hnone
      intro x hx hxs
      exact hnd.1 (by
        have : x.2.Name = usr.Name := by rw [hxs, hs]
        rw [← this]
        exact List.mem_map_of_mem (fun x => x.2.Name) hx)
    · have hne : usr.Name ≠ s := by
        intro h
        apply hnd.1
        have : usr.Name = e.2.Name := by rw [h, hs]
        rw [this]
        exact List.mem_map_of_mem (fun x => x.2.Name) he
      simp only [lastSender, if_neg hne]
      exact ih my e hnd.2 he hs

theorem lastSender_none_of_absent (s : String) :
    ∀ (users : UserMap) (my : Option User),
      (∀ x ∈ users, x.2.Name ≠ s) → lastSender s users my = my := by
  intro l
  induction l with
  | nil => intro my1 _; rfl
  | cons b t iht =>
    intro my1 hall
    obtain ⟨kb, ub⟩ := b
    have hb : ub.Name ≠ s := hall (kb, ub) (List.mem_cons_self _ _)
    simp only [lastSender, if_neg hb]
    exact iht my1 (fun x hx => hall x (List.mem_cons_of_mem _ hx))

theorem lastSender_some_of_exists (s : String) :
    ∀ (users : UserMap) (my : Option User), (∃ e ∈ users, e.2.Name = s) →
      ∃ e ∈ users, e.2.Name = s ∧ lastSender s users my = some e.2 := by
  intro users
  induction users with
  | nil => intro my h; obtain ⟨e, he, _⟩ := h; cases he
  | cons a rest ih =>
    intro my h
    obtain ⟨k, usr⟩ := a
    by_cases hrest : ∃ e ∈ rest, e.2.Name = s
    · have hstep : ∀ my1, ∃ e ∈ (k, usr) :: rest, e.2.Name = s ∧
          lastSender s rest my1 = some e.2 := by
        intro my1
        obtain ⟨e, he, hs, hl⟩ := ih my1 hrest
        exact ⟨e, List.mem_cons_of_mem _ he, hs, hl⟩
      by_cases hname : usr.Name = s
      · simp only [lastSender, if_pos hname]; exact hstep _
      · simp only [lastSender, if_neg hname]; exact hstep _
    · have hall : ∀ x ∈ rest, x.2.Name ≠ s := fun x hx hxs => hrest ⟨x, hx, hxs⟩
      obtain ⟨e, he, hs⟩ := h
      rcases List.mem_cons.1 he with rfl | he
      · simp only at hs
        refine ⟨(k, usr), List.mem_cons_self _ _, hs, ?_⟩
        simp only [lastSender, if_pos hs]
        exact lastSender_none_of_absent s rest _ hall
      · exact absurd hs (hall e he)

theorem fanOut_nil_of_all (s om : String) :
    ∀ users : UserMap, (∀ e ∈ users, e.2.Name = s) → fanOut s om users = [] := by
  intro users
  induction users with
  | nil => intro _; rfl
  | cons a rest ih =>
    intro h
    obtain ⟨k, usr⟩ := a
    have hname : usr.Name = s := h (k, usr) (List.mem_cons_self _ _)
    simp only [fanOut, if_pos hname]
    exact ih (fun e he => h e (List.mem_cons_of_mem _ he))

theorem eventsTo_promptEvents_ne (c : Nat) (u : User) (h : u.Conn ≠ c) :
    eventsTo (Sink.conn c) (promptEvents (some u)) = [] := by
  have hs : ¬ (Sink.conn u.Conn = Sink.conn c) := fun h1 => h (Sink.conn.inj h1)
  simp [eventsTo, promptEvents, hs]

theorem eventsTo_promptEvents_eq (u : User) :
    eventsTo (Sink.conn u.Conn) (promptEvents (some u)) =
      [{ sink := Sink.conn u.Conn, data := u.Name ++ " >> ", err := none }] := by
  simp [eventsTo, promptEvents]

theorem sendMsg_ok (env : Env) (henv : ∀ k s d, env k s d = none) (cs : ChatServer)
    (s m : String) :
    cs.SendMsg env s m =
      (none, { cs with out := cs.out ++
        ({ sink := Sink.chatLog, data := "user: " ++ s ++ " sent message: " ++ m ++ "\n",
           err := none } ::
          (fanOut s (outMsgOf s (m ++ "\n") true) cs.users ++
            promptEvents (lastSender s cs.users none))) }) := by
  simp only [ChatServer.SendMsg, sinkWrite, henv, write_ok env henv]
  simp

/-- C1: with every write accepted and a registry whose names and connections
are pairwise distinct, `SendMsg s m` returns nil, adds to the chat log exactly
the record of the message, writes on the connection of every registered user
other than `s` exactly the message line followed by that user's prompt, and
writes on the connection of `s`, when registered, its prompt only. -/
theorem sendMsg_delivery (env : Env) (henv : ∀ k s d, env k s d = none) (cs : ChatServer)
    (s m : String)
    (hnames : (cs.users.map (fun e => e.2.Name)).Nodup)
    (hconns : (cs.users.map (fun e => e.2.Conn)).Nodup) :
    (cs.SendMsg env s m).1 = none ∧
    eventsTo Sink.chatLog (newEvents cs.out (cs.SendMsg env s m).2.out) =
      [{ sink := Sink.chatLog, data := "user: " ++ s ++ " sent message: " ++ m ++ "\n",
         err := none }] ∧
    (∀ e ∈ cs.users, e.2.Name ≠ s →
      eventsTo (Sink.conn e.2.Conn) (newEvents cs.out (cs.SendMsg env s m).2.out) =
        [{ sink := Sink.conn e.2.Conn, data := "\n" ++ s ++ " >> " ++ m ++ "\n", err := none },
         { sink := Sink.conn e.2.Conn, data := e.2.Name ++ " >> ", err := none }]) ∧
    (∀ e ∈ cs.users, e.2.Name = s →
      eventsTo (Sink.conn e.2.Conn) (newEvents cs.out (cs.SendMsg env s m).2.out) =
        [{ sink := Sink.conn e.2.Conn, data := s ++ " >> ", err := none }]) := by
  rw [sendMsg_ok env henv]
  simp only [newEvents_append]
  refine ⟨trivial, ?_, ?_, ?_⟩
  · have hp : eventsTo Sink.chatLog (promptEvents (lastSender s cs.users none)) = [] := by
      cases lastSender s cs.users none <;> simp [eventsTo, promptEvents]
    rw [← List.singleton_append, eventsTo_append, eventsTo_append, eventsTo_fanOut_chatLog, hp]
    simp [eventsTo]
  · intro e he hne
    have hf := filter_eq_singleton_of_nodup_map (fun x : String × User => x.2.Conn)
      cs.users e hconns he
    have hp : eventsTo (Sink.conn e.2.Conn) (promptEvents (lastSender s cs.users none)) = [] := by
      by_cases hex : ∃ x ∈ cs.users, x.2.Name = s
      · obtain ⟨x, hx, hxs, hl⟩ := lastSender_some_of_exists s cs.users none hex
        rw [hl]
        apply eventsTo_promptEvents_ne
        intro hc
        have hxe : x = e :=
          List.inj_on_of_nodup_map hconns hx he hc
        exact hne (hxe ▸ hxs)
      · rw [lastSender_none_of_absent s cs.users none (fun x hx hxs => hex ⟨x, hx, hxs⟩)]
        rfl
    rw [← List.singleton_append, eventsTo_append, eventsTo_append, eventsTo_fanOut_conn, hf, hp]
    obtain ⟨k, usr⟩ := e
    simp only at hne
    simp [eventsTo, fanOut, hne, outMsgOf, String.append_assoc]
  · intro e he hs
    have hf := filter_eq_singleton_of_nodup_map (fun x : String × User => x.2.Conn)
      cs.users e hconns he
    rw [← List.singleton_append, eventsTo_append, eventsTo_append, eventsTo_fanOut_conn, hf,
      lastSender_of_mem s cs.users none e hnames he hs, eventsTo_promptEvents_eq]
    obtain ⟨k, usr⟩ := e
    simp only at hs
    simp [eventsTo, fanOut, hs]

theorem sendMsg_delivery_witness :
    eventsTo (Sink.conn 1) (newEvents []
        (ChatServer.SendMsg envOk { users := [("alice", alice), ("bob", bob)], out := [] }
          "bob" "hi").2.out) =
      [{ sink := Sink.conn 1, data := "\nbob >> hi\n", err := none },
       { sink := Sink.conn 1, data := "alice >> ", err := none }] ∧
    eventsTo (Sink.conn 2) (newEvents []
        (ChatServer.SendMsg envOk { users := [("alice", alice), ("bob", bob)], out := [] }
          "bob" "hi").2.out) =
      [{ sink := Sink.conn 2, data := "bob >> ", err := none }] :=
  have h := sendMsg_delivery envOk (fun _ _ _ => rfl)
    { users := [("alice", alice), ("bob", bob)], out := [] } "bob" "hi"
    (by decide) (by decide)
  ⟨h.2.2.1 ("alice", alice) (by decide) (by decide),
   h.2.2.2 ("bob", bob) (by decide) (by decide)⟩

theorem aborted_of_log_event (cs : ChatServer) (msg : GoError) (d : String)
    (e : Option GoError) :
    AbortedAtChatLog cs
      (some msg, { cs with out := cs.out ++ [{ sink := Sink.chatLog, data := d, err := e }] }) := by
  refine ⟨by simp, rfl, ?_⟩
  intro ev hev c
  simp only [newEvents_append, List.mem_singleton] at hev
  subst hev
  simp

/-- C2: when the write of the event record to the chat log fails, each of
`Join`, `SendMsg` and `Exit` returns an error, writes on no connection and
leaves the `users` map unchanged. -/
theorem chatLog_failure_aborts (env : Env) (cs : ChatServer) (ts : String) (user : User)
    (userName msg : String) (hfail : ∀ d, env cs.out.length Sink.chatLog d ≠ none) :
    AbortedAtChatLog cs (cs.Join env ts user) ∧
    AbortedAtChatLog cs (cs.SendMsg env userName msg) ∧
    AbortedAtChatLog cs (cs.Exit env ts userName) := by
  refine ⟨?_, ?_, ?_⟩
  · unfold ChatServer.Join
    simp only [sinkWrite]
    cases h : env cs.out.length Sink.chatLog
        ("user: " ++ user.Name ++ " joined at: " ++ ts ++ "\n") with
    | none => exact absurd h (hfail _)
    | some err => exact aborted_of_log_event cs _ _ _
  · unfold ChatServer.SendMsg
    simp only [sinkWrite]
    cases h : env cs.out.length Sink.chatLog
        ("user: " ++ userName ++ " sent message: " ++ msg ++ "\n") with
    | none => exact absurd h (hfail _)
    | some err => exact aborted_of_log_event cs _ _ _
  · unfold ChatServer.Exit
    simp only [sinkWrite]
    cases h : env cs.out.length Sink.chatLog
        ("user: " ++ userName ++ " has left at: " ++ ts ++ "\n") with
    | none => exact absurd h (hfail _)
    | some err => exact aborted_of_log_event cs _ _ _

theorem chatLog_failure_aborts_witness :
    AbortedAtChatLog { users := [("alice", alice)], out := [] }
      (ChatServer.Join envLogDown "T" { users := [("alice", alice)], out := [] } bob) ∧
    AbortedAtChatLog { users := [("alice", alice)], out := [] }
      (ChatServer.SendMsg envLogDown { users := [("alice", alice)], out := [] } "alice" "hi") ∧
    AbortedAtChatLog { users := [("alice", alice)], out := [] }
      (ChatServer.Exit envLogDown "T" { users := [("alice", alice)], out := [] } "alice") :=
  chatLog_failure_aborts envLogDown { users := [("alice", alice)], out := [] } "T" bob
    "alice" "hi" (fun _ h => by simp [envLogDown] at h)

/-- C4: alice and bob are registered, alice's connection rejects writes and bob
sends "hi": the write to alice fails and is recorded, yet `SendMsg` returns
nil, because `errors.Wrap` of the nil `writeErr` is nil. -/
theorem sendMsg_nil_despite_failed_peer :
    ChatServer.SendMsg (envConnDown 1) { users := [("alice", alice), ("bob", bob)], out := [] }
        "bob" "hi" =
      (none,
        { users := [("alice", alice), ("bob", bob)],
          out := [{ sink := Sink.chatLog, data := "user: bob sent message: hi\n", err := none },
                  { sink := Sink.conn 1, data := "\nbob >> hi\n", err := some "broken pipe" },
                  { sink := Sink.conn 2, data := "bob >> ", err := none }] }) := by
  decide

/-! ## Lemmas on the map operations -/

theorem mapLookup_nil (k : String) : mapLookup [] k = none := rfl

theorem mapLookup_cons (e : String × User) (m : UserMap) (k : String) :
    mapLookup (e :: m) k = if e.1 = k then some e.2 else mapLookup m k := by
  by_cases h : e.1 = k <;> simp [mapLookup, List.find?_cons, h]

theorem mapLookup_replace (k : String) (u : User) (k1 : String) :
    ∀ m : UserMap,
      mapLookup (m.map (fun e => if e.1 == k then (k, u) else e)) k1 =
        if k1 = k then (mapLookup m k).map (fun _ => u) else mapLookup m k1 := by
  intro m
  induction m with
  | nil => simp [mapLookup_nil]
  | cons e rest ih =>
    rw [List.map_cons, mapLookup_cons, ih]
    by_cases hk : k1 = k
    · subst hk
      by_cases he : e.1 = k1
      · simp [he, mapLookup_cons]
      · simp [he, mapLookup_cons]
    · by_cases he : e.1 = k
      · have h1 : ¬ k = k1 := fun h => hk h.symm
        have h2 : ¬ e.1 = k1 := fun h => hk (h.symm.trans he)
        simp [he, hk, h1, h2, mapLookup_cons]
      · simp [he, hk, mapLookup_cons]

theorem mapLookup_append_single (k : String) (u : User) (k1 : String) :
    ∀ m : UserMap,
      mapLookup (m ++ [(k, u)]) k1 =
        match mapLookup m k1 with
        | some v => some v
        | none => if k = k1 then some u else none := by
  intro m
  induction m with
  | nil => simp [mapLookup_nil, mapLookup_cons]
  | cons e rest ih =>
    rw [List.cons_append, mapLookup_cons, mapLookup_cons, ih]
    by_cases he : e.1 = k1 <;> simp [he]

theorem mapLookup_none_of_not_any (k : String) :
    ∀ m : UserMap, m.any (fun e => e.1 == k) = false → mapLookup m k = none := by
  intro m
  induction m with
  | nil => intro _; rfl
  | cons e rest ih =>
    intro h
    rw [List.any_cons, Bool.or_eq_false_iff] at h
    have he : ¬ e.1 = k := by simpa using h.1
    rw [mapLookup_cons, if_neg he]
    exact ih h.2

theorem mapLookup_isSome_of_any (k : String) :
    ∀ m : UserMap, m.any (fun e => e.1 == k) = true → ∃ v, mapLookup m k = some v := by
  intro m
  induction m with
  | nil => intro h; simp at h
  | cons e rest ih =>
    intro h
    rw [mapLookup_cons]
    by_cases he : e.1 = k
    · exact ⟨e.2, by simp [he]⟩
    · rw [if_neg he]
      rw [List.any_cons, Bool.or_eq_true] at h
      rcases h with h | h
      · exact absurd (by simpa using h) he
      · exact ih h

theorem mapLookup_insert_self (m : UserMap) (k : String) (u : User) :
    mapLookup (mapInsert m k u) k = some u := by
  unfold mapInsert
  by_cases h : m.any (fun e => e.1 == k) = true
  · rw [if_pos h, mapLookup_replace, if_pos rfl]
    obtain ⟨v, hv⟩ := mapLookup_isSome_of_any k m h
    rw [hv]; rfl
  · rw [if_neg h, mapLookup_append_single]
    have h1 : m.any (fun e => e.1 == k) = false := Bool.eq_false_iff.2 h
    rw [mapLookup_none_of_not_any k m h1]
    simp

theorem mapLookup_insert_ne (m : UserMap) (k : String) (u : User) (k1 : String)
    (hne : k1 ≠ k) : mapLookup (mapInsert m k u) k1 = mapLookup m k1 := by
  unfold mapInsert
  by_cases h : m.any (fun e => e.1 == k) = true
  · rw [if_pos h, mapLookup_replace, if_neg hne]
  · rw [if_neg h, mapLookup_append_single]
    have h1 : ¬ k = k1 := fun h => hne h.symm
    cases mapLookup m k1 <;> simp [h1]

theorem mapLookup_delete_self (k : String) :
    ∀ m : UserMap, mapLookup (mapDelete m k) k = none := by
  intro m
  induction m with
  | nil => rfl
  | cons e rest ih =>
    unfold mapDelete at ih ⊢
    by_cases he : e.1 = k
    · simp only [List.filter_cons, he, beq_self_eq_true, Bool.not_true]
      exact ih
    · have hb : (e.1 == k) = false := by simpa using he
      simp only [List.filter_cons, hb, Bool.not_false, if_true]
      rw [mapLookup_cons, if_neg he]
      exact ih

theorem mapLookup_delete_ne (k k1 : String) (hne : k1 ≠ k) :
    ∀ m : UserMap, mapLookup (mapDelete m k) k1 = mapLookup m k1 := by
  intro m
  induction m with
  | nil => rfl
  | cons e rest ih =>
    unfold mapDelete at ih ⊢
    by_cases he : e.1 = k
    · have h2 : ¬ e.1 = k1 := fun h => hne (h.symm.trans he)
      simp only [List.filter_cons, he, beq_self_eq_true, Bool.not_true]
      rw [mapLookup_cons, if_neg h2]
      exact ih
    · have hb : (e.1 == k) = false := by simpa using he
      simp only [List.filter_cons, hb, Bool.not_false, if_true]
      rw [mapLookup_cons, mapLookup_cons, ih]

theorem mapDelete_idem (m : UserMap) (k : String) :
    mapDelete (mapDelete m k) k = mapDelete m k := by
  simp [mapDelete, List.filter_filter]

/-! ## Join and Exit on the `users` map -/

theorem writeLoggedInUsers_users (env : Env) (cs : ChatServer) (user : User) :
    (cs.writeLoggedInUsers env user).2.users = cs.users := by
  unfold ChatServer.writeLoggedInUsers
  simp only
  split
  · rfl
  · split <;> rfl

theorem writeLoggedInUsers_ok (env : Env) (henv : ∀ k s d, env k s d = none) (cs : ChatServer)
    (user : User) : (cs.writeLoggedInUsers env user).1 = none := by
  unfold ChatServer.writeLoggedInUsers
  simp only [sinkWrite, henv]
  split <;> rfl

theorem join_ok (env : Env) (henv : ∀ k s d, env k s d = none) (ts : String) (cs : ChatServer)
    (user : User) :
    (cs.Join env ts user).1 = none ∧
      (cs.Join env ts user).2.users = mapInsert cs.users user.Name user := by
  unfold ChatServer.Join
  simp only [sinkWrite, henv]
  have h1 := fun c => writeLoggedInUsers_ok env henv c user
  have h2 := fun c => writeLoggedInUsers_users env c user
  split
  · rename_i err cs1 heq
    have h := congrArg Prod.fst heq
    rw [h1] at h
    exact absurd h (by simp)
  · rename_i cs1 heq
    have h := congrArg (fun r => r.2.users) heq
    simp only [h2] at h
    refine ⟨write_err_none _ _ _ _ _, ?_⟩
    rw [write_users, ← h]

theorem exit_users (env : Env) (hlog : ∀ k d, env k Sink.chatLog d = none) (ts : String)
    (cs : ChatServer) (name : String) :
    (cs.Exit env ts name).1 = none ∧ (cs.Exit env ts name).2.users = mapDelete cs.users name := by
  unfold ChatServer.Exit
  simp only [sinkWrite, hlog]
  exact ⟨write_err_none _ _ _ _ _, by rw [write_users]⟩

/-- C6 (as stated, refuted): alice is registered on connection 1 and a second
user named alice joins on connection 9, then a user with the empty name joins:
both calls of `Join` return nil, the session stored under "alice" is replaced
and the empty name is registered. -/
theorem join_accepts_taken_and_empty_name :
    (ChatServer.Join envOk "T" { users := [("alice", alice)], out := [] }
        { Name := "alice", Conn := 9 }).1 = none ∧
    (ChatServer.Join envOk "T" { users := [("alice", alice)], out := [] }
        { Name := "alice", Conn := 9 }).2.users = [("alice", { Name := "alice", Conn := 9 })] ∧
    (ChatServer.Join envOk "T" { users := [("alice", alice)], out := [] }
        { Name := "", Conn := 9 }).1 = none ∧
    (ChatServer.Join envOk "T" { users := [("alice", alice)], out := [] }
        { Name := "", Conn := 9 }).2.users = [("alice", alice), ("", { Name := "", Conn := 9 })] := by
  decide

/-- C6 (amended): with every write accepted, `Join` makes no check on the name:
it returns nil and stores the user under its name, whatever the name, and the
entries under every other name are as before. -/
theorem join_stores_user (env : Env) (henv : ∀ k s d, env k s d = none) (ts : String)
    (cs : ChatServer) (user : User) :
    (cs.Join env ts user).1 = none ∧
    mapLookup (cs.Join env ts user).2.users user.Name = some user ∧
    ∀ k, k ≠ user.Name → mapLookup (cs.Join env ts user).2.users k = mapLookup cs.users k := by
  obtain ⟨h1, h2⟩ := join_ok env henv ts cs user
  refine ⟨h1, ?_, ?_⟩
  · rw [h2]; exact mapLookup_insert_self _ _ _
  · intro k hk
    rw [h2]; exact mapLookup_insert_ne _ _ _ _ hk

theorem join_stores_user_witness :
    mapLookup (ChatServer.Join envOk "T" { users := [("alice", alice)], out := [] } bob).2.users
        "bob" = some bob ∧
    mapLookup (ChatServer.Join envOk "T" { users := [("alice", alice)], out := [] } bob).2.users
        "alice" = some alice :=
  have h := join_stores_user envOk (fun _ _ _ => rfl) "T"
    { users := [("alice", alice)], out := [] } bob
  ⟨h.2.1, (h.2.2 "alice" (by decide)).trans (by decide)⟩

/-- C8: with the chat log accepting writes, `Exit name` returns nil, removes the
entry of `name` and keeps every other entry; a second `Exit name` returns nil
too and leaves the `users` map equal to the map after the first call. -/
theorem exit_idempotent (env : Env) (hlog : ∀ k d, env k Sink.chatLog d = none)
    (ts1 ts2 : String) (cs : ChatServer) (name : String) :
    (cs.Exit env ts1 name).1 = none ∧
    (cs.Exit env ts1 name).2.users = cs.users.filter (fun e => decide (e.1 ≠ name)) ∧
    mapLookup (cs.Exit env ts1 name).2.users name = none ∧
    (∀ k, k ≠ name → mapLookup (cs.Exit env ts1 name).2.users k = mapLookup cs.users k) ∧
    ((cs.Exit env ts1 name).2.Exit env ts2 name).1 = none ∧
    ((cs.Exit env ts1 name).2.Exit env ts2 name).2.users = (cs.Exit env ts1 name).2.users := by
  obtain ⟨h1, h2⟩ := exit_users env hlog ts1 cs name
  obtain ⟨h3, h4⟩ := exit_users env hlog ts2 (cs.Exit env ts1 name).2 name
  refine ⟨h1, ?_, ?_, ?_, h3, ?_⟩
  · rw [h2]
    unfold mapDelete
    congr 1
    funext e
    by_cases h : e.1 = name <;> simp [h]
  · rw [h2]; exact mapLookup_delete_self _ _
  · intro k hk
    rw [h2]; exact mapLookup_delete_ne _ _ hk _
  · rw [h4, h2]; exact mapDelete_idem _ _

theorem exit_idempotent_witness :
    (ChatServer.Exit envOk "T" { users := [("alice", alice), ("bob", bob)], out := [] }
        "bob").2.users = [("alice", alice)] ∧
    ((ChatServer.Exit envOk "T" { users := [("alice", alice), ("bob", bob)], out := [] }
        "bob").2.Exit envOk "U" "bob").2.users = [("alice", alice)] :=
  have h := exit_idempotent envOk (fun _ _ => rfl) "T" "U"
    { users := [("alice", alice), ("bob", bob)], out := [] } "bob"
  ⟨h.2.1.trans (by decide), h.2.2.2.2.2.trans (h.2.1.trans (by decide))⟩

/-- C9 (as stated, refuted): nobody is registered and the handler is called for
the username "ghost" with body "hello": it answers 200 "ok" and the message is
put through `ChatServer.SendMsg`. -/
theorem http_sendMsg_unregistered_is_ok :
    Server.SendMsg envOk { chatServer := NewChatServer, chatServerUp := true } "ghost"
        (Except.ok "hello") ResponseWriter.fresh =
      ({ status := some 200, body := "ok" },
        { chatServer :=
            { users := [],
              out := [{ sink := Sink.chatLog, data := "user: ghost sent message: hello\n",
                        err := none }] },
          chatServerUp := true }) := by
  decide

/-- C9 (amended): with every write accepted, for every registry, every non-empty
username and every body read, the handler answers 200 "ok" and puts the body
through `ChatServer.SendMsg`, whether or not the username is registered. -/
theorem http_sendMsg_always_ok (env : Env) (henv : ∀ k s d, env k s d = none) (srv : Server)
    (userName usrMsg : String) (hname : userName ≠ "") :
    Server.SendMsg env srv userName (Except.ok usrMsg) ResponseWriter.fresh =
      ({ status := some 200, body := "ok" },
        { srv with chatServer := (srv.chatServer.SendMsg env userName usrMsg).2 }) := by
  unfold Server.SendMsg
  rw [if_neg hname]
  simp only [sendMsg_ok env henv]
  rfl

theorem http_sendMsg_always_ok_witness :
    "alice" ≠ "" ∧
    (Server.SendMsg envOk
        { chatServer := { users := [("alice", alice)], out := [] }, chatServerUp := true }
        "alice" (Except.ok "hello") ResponseWriter.fresh).1 = { status := some 200, body := "ok" } :=
  ⟨by decide,
    congrArg Prod.fst (http_sendMsg_always_ok envOk (fun _ _ _ => rfl)
      { chatServer := { users := [("alice", alice)], out := [] }, chatServerUp := true }
      "alice" "hello" (by decide))⟩

/-- C10: with the flag `chatServerUp` false, `HealthCheck` writes the down
message first, which fixes the status at 200, and then goes on to write "ok":
the response is 200 with body "chat server is down\nok". With the flag true it
is 200 with body "ok". -/
theorem healthCheck_down_is_200 (cs : ChatServer) :
    Server.HealthCheck { chatServer := cs, chatServerUp := false } ResponseWriter.fresh =
      { status := some 200, body := "chat server is down\nok" } ∧
    Server.HealthCheck { chatServer := cs, chatServerUp := true } ResponseWriter.fresh =
      { status := some 200, body := "ok" } := by
  constructor <;> rfl

/-- C5: `NewUser` on a stream that ends at once returns a user with the empty
name and a nil error; on a stream holding only the name in use "alice" it
returns a user named "alice" with a nil error; `manageConn` then joins that
user over alice's entry and its deferred `Exit` removes the name, so the
session that held "alice" is no longer registered. -/
theorem newUser_returns_invalid_name_at_eof :
    NewUser envOk 7 [] [] [] =
      ((some { Name := "", Conn := 7 }, none),
        [{ sink := Sink.conn 7, data := "Please enter your name: ", err := none }]) ∧
    (NewUser envOk 7 [("alice", alice)] [("alice", none)] []).1 =
      (some { Name := "alice", Conn := 7 }, none) ∧
    (ChatServer.Join envOk "T" { users := [], out := [] } { Name := "", Conn := 7 }).2.users =
      [("", { Name := "", Conn := 7 })] ∧
    (manageConn envOk "T" "U" 7 [("alice", none)] []
        { users := [("alice", alice)], out := [] }).users = [] := by
  decide

/-! ## The roster line -/

theorem loggedInLoop_eq (n : Nat) :
    ∀ (l : UserMap) (i : Nat) (acc : String), i + l.length = n →
      loggedInLoop n l i acc = acc ++ rosterNames (l.map (fun e => e.2.Name)) := by
  intro l
  induction l with
  | nil => intro i acc _; simp [loggedInLoop, rosterNames]
  | cons e rest ih =>
    intro i acc hlen
    obtain ⟨k, u⟩ := e
    simp only [List.length_cons] at hlen
    cases rest with
    | nil =>
      simp only [List.length_nil, Nat.zero_add] at hlen
      have hlt : ¬ (i + 1 < n) := by omega
      simp [loggedInLoop, rosterNames, rosterTail, hlt]
    | cons e2 rest2 =>
      obtain ⟨k2, u2⟩ := e2
      simp only [List.length_cons] at hlen
      have hlt : i + 1 < n := by omega
      have h := ih (i + 1) (acc ++ (u.Name ++ ", ")) (by simp only [List.length_cons]; omega)
      simp only [loggedInLoop, if_pos hlt] at h ⊢
      rw [h]
      simp [rosterNames, rosterTail, String.append_assoc]

theorem intercalate_go_newline :
    ∀ (l : List String) (acc : String),
      String.intercalate.go acc ", " l ++ "\n" = acc ++ rosterTail l := by
  intro l
  induction l with
  | nil => intro acc; simp [String.intercalate.go, rosterTail]
  | cons a t ih =>
    intro acc
    simp only [String.intercalate.go, rosterTail]
    rw [ih]
    simp [String.append_assoc]

theorem rosterNames_eq_intercalate (a : String) (t : List String) :
    "Current logged in users: " ++ rosterNames (a :: t) = rosterLine (a :: t) := by
  simp only [rosterNames, rosterLine, String.intercalate]
  rw [String.append_assoc, intercalate_go_newline]

theorem rosterTail_length_pos : ∀ l : List String, 1 ≤ (rosterTail l).length := by
  intro l
  cases l with
  | nil => decide
  | cons a t =>
    simp only [rosterTail, String.length_append]
    have : (", " : String).length = 2 := by decide
    omega

theorem writeLoggedInUsers_eq (env : Env) (henv : ∀ k s d, env k s d = none) (cs : ChatServer)
    (user : User) :
    cs.writeLoggedInUsers env user =
      (none, { cs with out := cs.out ++ rosterEvents user cs.users }) := by
  obtain ⟨users, out⟩ := cs
  unfold ChatServer.writeLoggedInUsers
  simp only [sinkWrite, henv]
  rw [loggedInLoop_eq users.length users 0 "" (by simp)]
  cases users with
  | nil => simp [rosterNames, rosterEvents]
  | cons e rest =>
    have hlen : ¬ (("" : String) ++ rosterNames (List.map (fun e => e.2.Name) (e :: rest))).length
        < 1 := by
      have h := rosterTail_length_pos (rest.map (fun e => e.2.Name))
      simp only [List.map_cons, rosterNames, String.length_append]
      omega
    rw [if_neg hlen]
    simp only [List.map_cons, String.empty_append, rosterNames_eq_intercalate]
    simp [rosterEvents]

theorem join_out (env : Env) (henv : ∀ k s d, env k s d = none) (ts : String) (cs : ChatServer)
    (user : User) :
    (cs.Join env ts user).2.out =
      cs.out ++ ([{ sink := Sink.chatLog,
                    data := "user: " ++ user.Name ++ " joined at: " ++ ts ++ "\n", err := none }] ++
        (rosterEvents user cs.users ++
          (fanOut user.Name ("\n" ++ ("user: " ++ user.Name ++ " joined at: " ++ ts ++ "\n"))
              (mapInsert cs.users user.Name user) ++
            promptEvents (lastSender user.Name (mapInsert cs.users user.Name user) none)))) := by
  unfold ChatServer.Join
  simp only [sinkWrite, henv, writeLoggedInUsers_eq env henv, write_ok env henv]
  simp [outMsgOf]

theorem mem_mapInsert (m : UserMap) (k : String) (u : User) (e : String × User)
    (he : e ∈ mapInsert m k u) : e = (k, u) ∨ (e ∈ m ∧ e.1 ≠ k) := by
  unfold mapInsert at he
  split at he
  · obtain ⟨x, hx, hxe⟩ := List.mem_map.1 he
    by_cases hk : x.1 = k
    · left; simp [hk] at hxe; exact hxe.symm
    · right
      have hb : (x.1 == k) = false := by simpa using hk
      simp only [hb] at hxe
      subst hxe
      exact ⟨hx, hk⟩
  · rename_i hany
    rcases List.mem_append.1 he with h | h
    · right
      refine ⟨h, ?_⟩
      intro hk
      apply hany
      rw [List.any_eq_true]
      exact ⟨e, h, by simp [hk]⟩
    · left; simpa using h

theorem self_mem_mapInsert (m : UserMap) (k : String) (u : User) :
    (k, u) ∈ mapInsert m k u := by
  unfold mapInsert
  split
  · rename_i hany
    rw [List.any_eq_true] at hany
    obtain ⟨x, hx, hxk⟩ := hany
    rw [List.mem_map]
    exact ⟨x, hx, by simp [hxk]⟩
  · simp

/-- C7: with every write accepted, a registry whose keys are its users' names
and a joining connection no registered user holds, the writes `Join` makes on
the joining connection are: nothing when the registry is empty, else one roster
line made of the header, the names registered before the join separated by
`", "` and a newline; and after it the user's own prompt. -/
theorem join_roster (env : Env) (henv : ∀ k s d, env k s d = none) (ts : String)
    (cs : ChatServer) (user : User)
    (hkey : ∀ e ∈ cs.users, e.1 = e.2.Name)
    (hfresh : ∀ e ∈ cs.users, e.2.Conn ≠ user.Conn) :
    eventsTo (Sink.conn user.Conn) (newEvents cs.out (cs.Join env ts user).2.out) =
      (if cs.users = [] then []
        else [{ sink := Sink.conn user.Conn,
                data := "Current logged in users: " ++
                  String.intercalate ", " (cs.users.map (fun e => e.2.Name)) ++ "\n",
                err := none }]) ++
        [{ sink := Sink.conn user.Conn, data := user.Name ++ " >> ", err := none }] := by
  rw [join_out env henv, newEvents_append, eventsTo_append, eventsTo_append, eventsTo_append]
  have hlog : eventsTo (Sink.conn user.Conn)
      [{ sink := Sink.chatLog, data := "user: " ++ user.Name ++ " joined at: " ++ ts ++ "\n",
         err := none }] = [] := by
    simp [eventsTo]
  have hroster : eventsTo (Sink.conn user.Conn) (rosterEvents user cs.users) =
      rosterEvents user cs.users := by
    unfold rosterEvents
    split <;> simp [eventsTo]
  have hfan : eventsTo (Sink.conn user.Conn)
      (fanOut user.Name ("\n" ++ ("user: " ++ user.Name ++ " joined at: " ++ ts ++ "\n"))
        (mapInsert cs.users user.Name user)) = [] := by
    rw [eventsTo_fanOut_conn]
    apply fanOut_nil_of_all
    intro e he
    rw [List.mem_filter] at he
    rcases mem_mapInsert _ _ _ _ he.1 with h | h
    · rw [h]
    · exact absurd (of_decide_eq_true he.2) (hfresh e h.1)
  have hlast : lastSender user.Name (mapInsert cs.users user.Name user) none = some user := by
    obtain ⟨e, he, hs, hl⟩ := lastSender_some_of_exists user.Name
      (mapInsert cs.users user.Name user) none
      ⟨(user.Name, user), self_mem_mapInsert _ _ _, rfl⟩
    rcases mem_mapInsert _ _ _ _ he with h | h
    · rw [hl, h]
    · exact absurd ((hkey e h.1).trans hs) h.2
  rw [hlog, hroster, hfan, hlast, eventsTo_promptEvents_eq]
  simp [rosterEvents, rosterLine]

theorem join_roster_witness :
    eventsTo (Sink.conn 2) (newEvents []
        (ChatServer.Join envOk "T" { users := [("alice", alice)], out := [] } bob).2.out) =
      [{ sink := Sink.conn 2, data := "Current logged in users: alice\n", err := none },
       { sink := Sink.conn 2, data := "bob >> ", err := none }] ∧
    eventsTo (Sink.conn 1) (newEvents []
        (ChatServer.Join envOk "T" { users := [], out := [] } alice).2.out) =
      [{ sink := Sink.conn 1, data := "alice >> ", err := none }] :=
  ⟨(join_roster envOk (fun _ _ _ => rfl) "T" { users := [("alice", alice)], out := [] } bob
      (by decide) (by decide)).trans (by decide),
   (join_roster envOk (fun _ _ _ => rfl) "T" { users := [], out := [] } alice
      (by decide) (by decide)).trans (by decide)⟩

/-- C3: whatever the outcome of each write, `ChatServer.write` issues a write of
the message on the connection of every registered user other than the sender;
a failed write at one user does not stop the writes at the others. -/
theorem write_reaches_every_peer (env : Env) (cs : ChatServer) (sender msg : String)
    (displayPrompt : Bool) (e : String × User) (he : e ∈ cs.users) (hne : e.2.Name ≠ sender) :
    ∃ ev ∈ newEvents cs.out (cs.write env sender msg displayPrompt).2.out,
      ev.sink = Sink.conn e.2.Conn ∧
      ev.data = (if displayPrompt then "\n" ++ sender ++ " >> " ++ msg else msg) := by
  obtain ⟨evs, h1, h2⟩ := write_attempts env cs sender msg displayPrompt
  rw [h1, newEvents_append]
  exact h2 e he hne

theorem write_reaches_every_peer_witness :
    ∃ ev ∈ newEvents []
        (ChatServer.write (envConnDown 1)
          { users := [("alice", alice), ("carol", carol), ("bob", bob)], out := [] }
          "bob" "hi\n" true).2.out,
      ev.sink = Sink.conn 3 ∧
      ev.data = (if true = true then "\n" ++ "bob" ++ " >> " ++ "hi\n" else "hi\n") :=
  write_reaches_every_peer (envConnDown 1)
    { users := [("alice", alice), ("carol", carol), ("bob", bob)], out := [] }
    "bob" "hi\n" true ("carol", carol) (by decide) (by decide)

end Torbit
